import Mathlib

/-!
# Verification of the rc-protocols SBUS decoder and CPPM writer

Shallow embedding of `src/sbus.rs` and `src/cppm.rs`.

Conventions used throughout:
* `u8`/`u16`/`u32` values are `Nat`s; wherever the Rust code can truncate
  (e.g. `0xffu8 << n`) the embedding applies the corresponding `% 2 ^ w`
  explicitly.  Operations whose Rust result provably fits the machine width
  (e.g. the `u16` shifts in `decode_channels`, whose three contributions
  stay below `2 ^ 16`) are carried out on plain `Nat`.
* `heapless::Vec<u8, U22>` is a `List Nat`; `push` fails exactly when the
  length equals the capacity 22, as in `heapless`.
* the SPSC result channel of capacity `cap` is modelled by the number of
  free slots it has left; `enqueue` fails exactly when no slot is free.
* the generic transport-error type `E` is instantiated with `Nat`.
-/

set_option maxRecDepth 10000

namespace Sbus

def HEADER_BYTE : Nat := 0x0f
def FOOTER_BYTE : Nat := 0x00
def CHANNEL_AMOUNT : Nat := 16
def CHANNEL_BYTE_COUNT : Nat := 22

/-- `SbusFrame` from `sbus.rs`: 16 proportional channels (`u16`) and the two
digital channels (`[bool; 2]`, kept as a 2-element list). -/
structure SbusFrame where
  channels : List Nat
  digital_channels : List Bool
deriving DecidableEq

/-- `SbusFrame::default()`. -/
def SbusFrame.default : SbusFrame :=
  ⟨List.replicate 16 0, [false, false]⟩

/-- One iteration of the `for channel in 0..CHANNEL_AMOUNT` loop body of
`decode_channels` in `sbus.rs`: the value written to
`message.channels[channel]`.  `bytes[i]` is `bytes.getD i 0`; theorem
`decode_channels_no_oob` below shows every access is in bounds for a
22-byte payload, so the default is never produced.  The `u8` mask
`0xff << first_byte_offset` truncates, hence the `% 256`. -/
def decode_channel_value (bytes : List Nat) (channel : Nat) : Nat :=
  let offset := channel * 11
  let first_byte_offset := offset % 8
  let first_byte_index := offset / 8
  let bits_from_next_bytes := 11 - (8 - first_byte_offset)
  let first_byte_mask := (0xff <<< first_byte_offset) % 256
  let second_byte_mask := 0xff >>> (8 - min bits_from_next_bytes 8)
  let from_first_byte := (bytes.getD first_byte_index 0 &&& first_byte_mask) >>> first_byte_offset
  let from_second_byte := (bytes.getD (1 + first_byte_index) 0 &&& second_byte_mask) <<< (8 - first_byte_offset)
  let from_third_byte :=
    if bits_from_next_bytes > 8 then
      let bits_from_third_byte := bits_from_next_bytes - 8
      let third_byte_mask := 0xff >>> (8 - bits_from_third_byte)
      (bytes.getD (2 + first_byte_index) 0 &&& third_byte_mask) <<< (11 - bits_from_third_byte)
    else 0
  from_first_byte ||| from_second_byte ||| from_third_byte

/-- `decode_channels` from `sbus.rs`: the 16 channel values written into
`message.channels` (the loop writes index `channel` for
`channel ∈ 0..16`). -/
def decode_channels (bytes : List Nat) : List Nat :=
  (List.range CHANNEL_AMOUNT).map (decode_channel_value bytes)

/-- Same expression as `decode_channel_value`, but every `bytes[_]` access
uses the partial lookup `bytes[_]?`, returning `none` if any read is out of
bounds.  Used to state that channel extraction never reads out of bounds. -/
def decode_channel_value_checked (bytes : List Nat) (channel : Nat) : Option Nat :=
  let offset := channel * 11
  let first_byte_offset := offset % 8
  let first_byte_index := offset / 8
  let bits_from_next_bytes := 11 - (8 - first_byte_offset)
  let first_byte_mask := (0xff <<< first_byte_offset) % 256
  let second_byte_mask := 0xff >>> (8 - min bits_from_next_bytes 8)
  match bytes[first_byte_index]?, bytes[1 + first_byte_index]? with
  | some b1, some b2 =>
    let from_first_byte := (b1 &&& first_byte_mask) >>> first_byte_offset
    let from_second_byte := (b2 &&& second_byte_mask) <<< (8 - first_byte_offset)
    if bits_from_next_bytes > 8 then
      let bits_from_third_byte := bits_from_next_bytes - 8
      let third_byte_mask := 0xff >>> (8 - bits_from_third_byte)
      match bytes[2 + first_byte_index]? with
      | some b3 =>
        some (from_first_byte ||| from_second_byte |||
          ((b3 &&& third_byte_mask) <<< (11 - bits_from_third_byte)))
      | none => none
    else
      some (from_first_byte ||| from_second_byte ||| 0)
  | _, _ => none

/-- The payload indices `decode_channel_value` reads for a given channel:
`first_byte_index`, `1 + first_byte_index`, and — exactly when
`bits_from_next_bytes > 8` — `2 + first_byte_index`. -/
def channel_byte_indices (channel : Nat) : List Nat :=
  let offset := channel * 11
  let first_byte_index := offset / 8
  let bits_from_next_bytes := 11 - (8 - offset % 8)
  [first_byte_index, 1 + first_byte_index] ++
    (if bits_from_next_bytes > 8 then [2 + first_byte_index] else [])

/-- A byte list read as a little-endian bitstream / base-256 number. -/
def payloadToNat : List Nat → Nat
  | [] => 0
  | b :: t => b + 256 * payloadToNat t

/-- The bit-packer of the specification: pack values as contiguous 11-bit
little-endian fields. -/
def repackChannels : List Nat → Nat
  | [] => 0
  | v :: t => v + 2048 * repackChannels t

/-- Split a number back into `len` little-endian bytes. -/
def natToBytes : Nat → Nat → List Nat
  | _, 0 => []
  | n, len + 1 => n % 256 :: natToBytes (n / 256) len

/-! ### Arithmetic facts about the extraction -/

theorem mask255 : ∀ b < 256, b &&& 255 = b := by decide

theorem mask3 : ∀ b < 256, b &&& 3 = b % 4 := by decide

theorem mask7 : ∀ b < 256, b &&& 7 = b % 8 := by decide

theorem mask15 : ∀ b < 256, b &&& 15 = b % 16 := by decide

theorem mask31 : ∀ b < 256, b &&& 31 = b % 32 := by decide

theorem mask63 : ∀ b < 256, b &&& 63 = b % 64 := by decide

theorem mask127 : ∀ b < 256, b &&& 127 = b % 128 := by decide

theorem hi254 : ∀ b < 256, (b &&& 254) / 2 = b / 2 := by decide

theorem hi252 : ∀ b < 256, (b &&& 252) / 4 = b / 4 := by decide

theorem hi248 : ∀ b < 256, (b &&& 248) / 8 = b / 8 := by decide

theorem hi240 : ∀ b < 256, (b &&& 240) / 16 = b / 16 := by decide

theorem hi224 : ∀ b < 256, (b &&& 224) / 32 = b / 32 := by decide

theorem hi192 : ∀ b < 256, (b &&& 192) / 64 = b / 64 := by decide

theorem hi128 : ∀ b < 256, (b &&& 128) / 128 = b / 128 := by decide

/-- A bitwise or of values occupying disjoint bit ranges is an addition. -/
theorem lor_eq_add_of_lt (a c m s : Nat) (hm : m = 2 ^ s) (h : a < m) :
    a ||| c * m = a + c * m := by
  subst hm
  rw [Nat.mul_comm c (2 ^ s), Nat.or_comm, ← Nat.mul_add_lt_is_or h, Nat.add_comm]

theorem payloadToNat_lt (l : List Nat) (h : ∀ b ∈ l, b < 256) :
    payloadToNat l < 256 ^ l.length := by
  induction l with
  | nil => simp [payloadToNat]
  | cons b t ih =>
    have hb : b < 256 := h b (by simp)
    have ht := ih (fun x hx => h x (by simp [hx]))
    simp only [payloadToNat, List.length_cons, pow_succ]
    have : 256 * payloadToNat t ≤ 256 * (256 ^ t.length - 1) :=
      Nat.mul_le_mul_left _ (by omega)
    have hpos : 1 ≤ 256 ^ t.length := Nat.one_le_pow _ _ (by norm_num)
    omega

theorem natToBytes_payloadToNat (l : List Nat) (h : ∀ b ∈ l, b < 256) :
    natToBytes (payloadToNat l) l.length = l := by
  induction l with
  | nil => simp [natToBytes]
  | cons b t ih =>
    have hb : b < 256 := h b (by simp)
    have ht := ih (fun x hx => h x (by simp [hx]))
    simp only [payloadToNat, List.length_cons, natToBytes]
    have e1 : (b + 256 * payloadToNat t) % 256 = b := by omega
    have e2 : (b + 256 * payloadToNat t) / 256 = payloadToNat t := by omega
    rw [e1, e2, ht]

/-- Repacking the per-position 11-bit slices of `N` recovers `N` modulo
`2 ^ (11 n)`. -/
theorem repack_extract (n : Nat) : ∀ N : Nat,
    repackChannels ((List.range n).map fun k => (N >>> (11 * k)) % 2048) =
      N % 2 ^ (11 * n) := by
  induction n with
  | zero => intro N; simp [repackChannels, Nat.mod_one]
  | succ n ih =>
    intro N
    rw [List.range_succ_eq_map, List.map_cons, List.map_map]
    have hcomp : ((fun k => (N >>> (11 * k)) % 2048) ∘ Nat.succ) =
        fun k => ((N >>> 11) >>> (11 * k)) % 2048 := by
      funext k
      simp only [Function.comp]
      rw [show 11 * Nat.succ k = 11 + 11 * k by omega, Nat.shiftRight_add]
    rw [hcomp, repackChannels, ih (N >>> 11)]
    have h1 : N >>> (11 * 0) % 2048 = N % 2048 := by norm_num
    have h2 : N >>> 11 = N / 2048 := by
      rw [Nat.shiftRight_eq_div_pow]
    have h3 : (2 : Nat) ^ (11 * (n + 1)) = 2048 * 2 ^ (11 * n) := by
      rw [Nat.mul_add, Nat.pow_add]; ring_nf
    rw [h1, h2, h3, Nat.mod_mul]

/-- Per-channel correctness of the extraction: channel `k` of a 22-byte
payload is bits `[11 k, 11 k + 11)` of the payload read as a little-endian
bitstream. -/
theorem decode_channel_value_bits
    (b0 b1 b2 b3 b4 b5 b6 b7 b8 b9 b10 b11 b12 b13 b14 b15 b16 b17 b18 b19 b20 b21 : Nat)
    (h0 : b0 < 256) (h1 : b1 < 256) (h2 : b2 < 256) (h3 : b3 < 256) (h4 : b4 < 256)
    (h5 : b5 < 256) (h6 : b6 < 256) (h7 : b7 < 256) (h8 : b8 < 256) (h9 : b9 < 256)
    (h10 : b10 < 256) (h11 : b11 < 256) (h12 : b12 < 256) (h13 : b13 < 256) (h14 : b14 < 256)
    (h15 : b15 < 256) (h16 : b16 < 256) (h17 : b17 < 256) (h18 : b18 < 256) (h19 : b19 < 256)
    (h20 : b20 < 256) (h21 : b21 < 256) : ∀ k < 16,
    decode_channel_value
        [b0, b1, b2, b3, b4, b5, b6, b7, b8, b9, b10, b11, b12, b13, b14, b15, b16, b17, b18, b19, b20, b21] k =
      (payloadToNat
        [b0, b1, b2, b3, b4, b5, b6, b7, b8, b9, b10, b11, b12, b13, b14, b15, b16, b17, b18, b19, b20, b21] >>>
          (11 * k)) % 2048 := by
  intro k hk
  interval_cases k
  · norm_num [decode_channel_value, payloadToNat, List.getD, Nat.shiftLeft_eq,
      Nat.shiftRight_eq_div_pow]
    rw [mask255 b0 h0, mask7 b1 h1,
      lor_eq_add_of_lt _ _ 256 8 (by norm_num) (by omega)]
    omega
  · norm_num [decode_channel_value, payloadToNat, List.getD, Nat.shiftLeft_eq,
      Nat.shiftRight_eq_div_pow]
    rw [hi248 b1 h1, mask63 b2 h2,
      lor_eq_add_of_lt _ _ 32 5 (by norm_num) (by omega)]
    omega
  · norm_num [decode_channel_value, payloadToNat, List.getD, Nat.shiftLeft_eq,
      Nat.shiftRight_eq_div_pow]
    rw [hi192 b2 h2, mask255 b3 h3,
      lor_eq_add_of_lt _ _ 4 2 (by norm_num) (by omega),
      lor_eq_add_of_lt _ _ 1024 10 (by norm_num) (by omega)]
    omega
  · norm_num [decode_channel_value, payloadToNat, List.getD, Nat.shiftLeft_eq,
      Nat.shiftRight_eq_div_pow]
    rw [hi254 b4 h4, mask15 b5 h5,
      lor_eq_add_of_lt _ _ 128 7 (by norm_num) (by omega)]
    omega
  · norm_num [decode_channel_value, payloadToNat, List.getD, Nat.shiftLeft_eq,
      Nat.shiftRight_eq_div_pow]
    rw [hi240 b5 h5, mask127 b6 h6,
      lor_eq_add_of_lt _ _ 16 4 (by norm_num) (by omega)]
    omega
  · norm_num [decode_channel_value, payloadToNat, List.getD, Nat.shiftLeft_eq,
      Nat.shiftRight_eq_div_pow]
    rw [hi128 b6 h6, mask255 b7 h7, mask3 b8 h8,
      lor_eq_add_of_lt _ _ 2 1 (by norm_num) (by omega),
      lor_eq_add_of_lt _ _ 512 9 (by norm_num) (by omega)]
    omega
  · norm_num [decode_channel_value, payloadToNat, List.getD, Nat.shiftLeft_eq,
      Nat.shiftRight_eq_div_pow]
    rw [hi252 b8 h8, mask31 b9 h9,
      lor_eq_add_of_lt _ _ 64 6 (by norm_num) (by omega)]
    omega
  · norm_num [decode_channel_value, payloadToNat, List.getD, Nat.shiftLeft_eq,
      Nat.shiftRight_eq_div_pow]
    rw [hi224 b9 h9, mask255 b10 h10,
      lor_eq_add_of_lt _ _ 8 3 (by norm_num) (by omega)]
    omega
  · norm_num [decode_channel_value, payloadToNat, List.getD, Nat.shiftLeft_eq,
      Nat.shiftRight_eq_div_pow]
    rw [mask255 b11 h11, mask7 b12 h12,
      lor_eq_add_of_lt _ _ 256 8 (by norm_num) (by omega)]
    omega
  · norm_num [decode_channel_value, payloadToNat, List.getD, Nat.shiftLeft_eq,
      Nat.shiftRight_eq_div_pow]
    rw [hi248 b12 h12, mask63 b13 h13,
      lor_eq_add_of_lt _ _ 32 5 (by norm_num) (by omega)]
    omega
  · norm_num [decode_channel_value, payloadToNat, List.getD, Nat.shiftLeft_eq,
      Nat.shiftRight_eq_div_pow]
    rw [hi192 b13 h13, mask255 b14 h14,
      lor_eq_add_of_lt _ _ 4 2 (by norm_num) (by omega),
      lor_eq_add_of_lt _ _ 1024 10 (by norm_num) (by omega)]
    omega
  · norm_num [decode_channel_value, payloadToNat, List.getD, Nat.shiftLeft_eq,
      Nat.shiftRight_eq_div_pow]
    rw [hi254 b15 h15, mask15 b16 h16,
      lor_eq_add_of_lt _ _ 128 7 (by norm_num) (by omega)]
    omega
  · norm_num [decode_channel_value, payloadToNat, List.getD, Nat.shiftLeft_eq,
      Nat.shiftRight_eq_div_pow]
    rw [hi240 b16 h16, mask127 b17 h17,
      lor_eq_add_of_lt _ _ 16 4 (by norm_num) (by omega)]
    omega
  · norm_num [decode_channel_value, payloadToNat, List.getD, Nat.shiftLeft_eq,
      Nat.shiftRight_eq_div_pow]
    rw [hi128 b17 h17, mask255 b18 h18, mask3 b19 h19,
      lor_eq_add_of_lt _ _ 2 1 (by norm_num) (by omega),
      lor_eq_add_of_lt _ _ 512 9 (by norm_num) (by omega)]
    omega
  · norm_num [decode_channel_value, payloadToNat, List.getD, Nat.shiftLeft_eq,
      Nat.shiftRight_eq_div_pow]
    rw [hi252 b19 h19, mask31 b20 h20,
      lor_eq_add_of_lt _ _ 64 6 (by norm_num) (by omega)]
    omega
  · norm_num [decode_channel_value, payloadToNat, List.getD, Nat.shiftLeft_eq,
      Nat.shiftRight_eq_div_pow]
    rw [hi224 b20 h20, mask255 b21 h21,
      lor_eq_add_of_lt _ _ 8 3 (by norm_num) (by omega)]
    omega

/-- **C2** For every 22-byte payload, `decode_channels` produces 16 channel
values such that for every `k < 16` the `k`-th value equals bits
`[11 k, 11 k + 11)` of the payload read as a little-endian bitstream;
repacking the 16 extracted 11-bit values reproduces the 22 payload bytes
exactly, and every extracted value lies in `0..=2047`. -/
theorem decode_channels_bitstream_roundtrip
    (b0 b1 b2 b3 b4 b5 b6 b7 b8 b9 b10 b11 b12 b13 b14 b15 b16 b17 b18 b19 b20 b21 : Nat)
    (h0 : b0 < 256) (h1 : b1 < 256) (h2 : b2 < 256) (h3 : b3 < 256) (h4 : b4 < 256)
    (h5 : b5 < 256) (h6 : b6 < 256) (h7 : b7 < 256) (h8 : b8 < 256) (h9 : b9 < 256)
    (h10 : b10 < 256) (h11 : b11 < 256) (h12 : b12 < 256) (h13 : b13 < 256) (h14 : b14 < 256)
    (h15 : b15 < 256) (h16 : b16 < 256) (h17 : b17 < 256) (h18 : b18 < 256) (h19 : b19 < 256)
    (h20 : b20 < 256) (h21 : b21 < 256) :
    (∀ k < 16,
      (decode_channels
          [b0, b1, b2, b3, b4, b5, b6, b7, b8, b9, b10, b11, b12, b13, b14, b15, b16, b17, b18, b19, b20, b21]).getD k 0 =
        (payloadToNat
          [b0, b1, b2, b3, b4, b5, b6, b7, b8, b9, b10, b11, b12, b13, b14, b15, b16, b17, b18, b19, b20, b21] >>>
            (11 * k)) % 2048) ∧
    repackChannels
        (decode_channels
          [b0, b1, b2, b3, b4, b5, b6, b7, b8, b9, b10, b11, b12, b13, b14, b15, b16, b17, b18, b19, b20, b21]) =
      payloadToNat
        [b0, b1, b2, b3, b4, b5, b6, b7, b8, b9, b10, b11, b12, b13, b14, b15, b16, b17, b18, b19, b20, b21] ∧
    natToBytes
        (repackChannels
          (decode_channels
            [b0, b1, b2, b3, b4, b5, b6, b7, b8, b9, b10, b11, b12, b13, b14, b15, b16, b17, b18, b19, b20, b21])) 22 =
      [b0, b1, b2, b3, b4, b5, b6, b7, b8, b9, b10, b11, b12, b13, b14, b15, b16, b17, b18, b19, b20, b21] ∧
    ∀ v ∈ decode_channels
        [b0, b1, b2, b3, b4, b5, b6, b7, b8, b9, b10, b11, b12, b13, b14, b15, b16, b17, b18, b19, b20, b21],
      v < 2048 := by
  have hbits := decode_channel_value_bits b0 b1 b2 b3 b4 b5 b6 b7 b8 b9 b10 b11 b12 b13 b14
    b15 b16 b17 b18 b19 b20 b21 h0 h1 h2 h3 h4 h5 h6 h7 h8 h9 h10 h11 h12 h13 h14 h15 h16
    h17 h18 h19 h20 h21
  have hmem : ∀ b ∈
      [b0, b1, b2, b3, b4, b5, b6, b7, b8, b9, b10, b11, b12, b13, b14, b15, b16, b17, b18, b19, b20, b21],
      b < 256 := by
    intro b hb
    simp only [List.mem_cons, List.not_mem_nil, or_false] at hb
    rcases hb with rfl | rfl | rfl | rfl | rfl | rfl | rfl | rfl | rfl | rfl | rfl | rfl |
      rfl | rfl | rfl | rfl | rfl | rfl | rfl | rfl | rfl | rfl <;> assumption
  have hmap : decode_channels
      [b0, b1, b2, b3, b4, b5, b6, b7, b8, b9, b10, b11, b12, b13, b14, b15, b16, b17, b18, b19, b20, b21] =
      (List.range 16).map fun k =>
        (payloadToNat
          [b0, b1, b2, b3, b4, b5, b6, b7, b8, b9, b10, b11, b12, b13, b14, b15, b16, b17, b18, b19, b20, b21] >>>
            (11 * k)) % 2048 := by
    refine List.map_congr_left fun k hk => hbits k (List.mem_range.mp hk)
  have hlt : payloadToNat
      [b0, b1, b2, b3, b4, b5, b6, b7, b8, b9, b10, b11, b12, b13, b14, b15, b16, b17, b18, b19, b20, b21] <
      2 ^ (11 * 16) := by
    have hl := payloadToNat_lt _ hmem
    have e : (256 : Nat) ^
        ([b0, b1, b2, b3, b4, b5, b6, b7, b8, b9, b10, b11, b12, b13, b14, b15, b16, b17, b18, b19, b20, b21].length) =
        2 ^ (11 * 16) := by norm_num
    rw [e] at hl
    exact hl
  have hrepack : repackChannels
      (decode_channels
        [b0, b1, b2, b3, b4, b5, b6, b7, b8, b9, b10, b11, b12, b13, b14, b15, b16, b17, b18, b19, b20, b21]) =
      payloadToNat
        [b0, b1, b2, b3, b4, b5, b6, b7, b8, b9, b10, b11, b12, b13, b14, b15, b16, b17, b18, b19, b20, b21] := by
    rw [hmap, repack_extract]
    exact Nat.mod_eq_of_lt hlt
  refine ⟨?_, hrepack, ?_, ?_⟩
  · intro k hk
    rw [hmap, List.getD_eq_getElem?_getD, List.getElem?_map, List.getElem?_range hk]
    simp
  · rw [hrepack]
    exact natToBytes_payloadToNat _ hmem
  · intro v hv
    rw [hmap] at hv
    simp only [List.mem_map, List.mem_range] at hv
    obtain ⟨k, _, rfl⟩ := hv
    exact Nat.mod_lt _ (by norm_num)

/-- Witness for `decode_channels_bitstream_roundtrip`, at the byte payload
of the repository's own `sbus_decoder_decodess_single_valid_input` test. -/
theorem decode_channels_bitstream_roundtrip_witness :
    (decode_channels
        [0xFE, 0x07, 0xC0, 0xFF, 0x01, 0xF0, 0x7F, 0x00, 0xFC, 0x1F, 0x00,
         0xFF, 0x07, 0xC0, 0xFF, 0x01, 0xF0, 0x7F, 0x00, 0xFC, 0x1F, 0x00]).getD 0 0 =
      (payloadToNat
        [0xFE, 0x07, 0xC0, 0xFF, 0x01, 0xF0, 0x7F, 0x00, 0xFC, 0x1F, 0x00,
         0xFF, 0x07, 0xC0, 0xFF, 0x01, 0xF0, 0x7F, 0x00, 0xFC, 0x1F, 0x00] >>> (11 * 0)) % 2048 :=
  (decode_channels_bitstream_roundtrip 0xFE 0x07 0xC0 0xFF 0x01 0xF0 0x7F 0x00 0xFC 0x1F 0x00
    0xFF 0x07 0xC0 0xFF 0x01 0xF0 0x7F 0x00 0xFC 0x1F 0x00
    (by norm_num) (by norm_num) (by norm_num) (by norm_num) (by norm_num) (by norm_num)
    (by norm_num) (by norm_num) (by norm_num) (by norm_num) (by norm_num) (by norm_num)
    (by norm_num) (by norm_num) (by norm_num) (by norm_num) (by norm_num) (by norm_num)
    (by norm_num) (by norm_num) (by norm_num) (by norm_num)).1 0 (by norm_num)

/-- **C10** For every 22-byte payload, channel extraction only indexes bytes
0 through 21: the bounds-checked reading of each channel succeeds and agrees
with the unchecked one, every accessed index is below 22, and for channel 15
the third-byte branch is not taken (it reads exactly indices 20 and 21). -/
theorem decode_channels_no_oob (bytes : List Nat) (h : bytes.length = 22) :
    (∀ k < 16, decode_channel_value_checked bytes k = some (decode_channel_value bytes k)) ∧
    (∀ k < 16, ∀ i ∈ channel_byte_indices k, i < 22) ∧
    channel_byte_indices 15 = [20, 21] := by
  refine ⟨?_, by decide, by decide⟩
  have hacc : ∀ i, i < 22 → bytes[i]? = some (bytes.getD i 0) := by
    intro i hi
    rw [List.getD_eq_getElem?_getD, List.getElem?_eq_getElem (by omega)]
    rfl
  intro k hk
  interval_cases k <;>
    simp only [decode_channel_value_checked, decode_channel_value,
      hacc 0 (by omega), hacc 1 (by omega), hacc 2 (by omega), hacc 3 (by omega),
      hacc 4 (by omega), hacc 5 (by omega), hacc 6 (by omega), hacc 7 (by omega),
      hacc 8 (by omega), hacc 9 (by omega), hacc 10 (by omega), hacc 11 (by omega),
      hacc 12 (by omega), hacc 13 (by omega), hacc 14 (by omega), hacc 15 (by omega),
      hacc 16 (by omega), hacc 17 (by omega), hacc 18 (by omega), hacc 19 (by omega),
      hacc 20 (by omega), hacc 21 (by omega)] <;> norm_num

/-- Witness for `decode_channels_no_oob` at the all-zero payload. -/
theorem decode_channels_no_oob_witness :
    decode_channel_value_checked (List.replicate 22 0) 0 =
      some (decode_channel_value (List.replicate 22 0) 0) :=
  (decode_channels_no_oob (List.replicate 22 0) rfl).1 0 (by norm_num)

/-! ### The decoder state machine

`SbusDecoder::process` drains the byte channel, stepping the state machine
once per byte and emitting results on the capacity-bounded result channel.
Two models are given:

* `stepByteB` / `processB`: the faithful model.  The result channel is
  modelled by the number `free` of slots it still accepts;
  `try_send_message` fails — leaving the decoder parked in `Recover` and
  returning `FatalError::ResultTxFull` — exactly when `free = 0`.
* `stepByteU` / `processU`: the same machine run under the assumption that
  the output channel accepts every emission (the hypothesis of the spec's
  delivery claims).  `processB_processU` below relates the two.
-/

/-- `Error<E>` from `sbus.rs`, with the transport-error type `E := Nat`. -/
inductive Error where
  | MissingFooter
  | Failsafe (f : SbusFrame)
  | MissingHeader
  | ByteReadError (e : Nat)
  | ExpectedHeader
deriving DecidableEq

/-- `RecoverableResult<SbusFrame, E> = Result<SbusFrame, Error<E>>`. -/
inductive RecoverableResult where
  | ok (f : SbusFrame)
  | err (e : Error)
deriving DecidableEq

/-- `FatalError<E>` from `sbus.rs`. -/
inductive FatalError where
  | ResultTxFull (m : RecoverableResult)
  | VecFull (b : Nat)
deriving DecidableEq

/-- `DecoderState` from `sbus.rs`. -/
inductive DecoderState where
  | WaitForHeader
  | Channel (previous_bytes : List Nat)
  | WaitForFooter
  | Recover
deriving DecidableEq

/-- The mutable fields of `SbusDecoder` (the two channel ends are modelled
separately, as the input byte list and the free-slot count). -/
structure SbusDecoder where
  state : DecoderState
  current_message : SbusFrame
  failsafe : Bool
deriving DecidableEq

/-- `SbusDecoder::new`. -/
def SbusDecoder.new : SbusDecoder :=
  ⟨.WaitForHeader, SbusFrame.default, false⟩

/-- An element of the byte input channel: `Result<u8, E>`. -/
inductive ByteResult where
  | ok (b : Nat)
  | err (e : Nat)
deriving DecidableEq

/-- `decode_digital_byte` from `sbus.rs`: overwrites the two digital
channels of `message` and reports (as the `Bool`) whether the failsafe bit
(bit 2) was set, i.e. whether the Rust function returned `Err(Failsafe)`. -/
def decode_digital_byte (message : SbusFrame) (byte : Nat) : SbusFrame × Bool :=
  (⟨message.channels, [byte &&& 1 != 0, byte &&& 2 != 0]⟩, byte &&& 4 != 0)

/-- Outcome of one `process` loop iteration under the
every-emission-accepted assumption: the updated decoder, the messages
enqueued on the result channel, and the fatal error (if any) that aborts
the loop. -/
structure UStep where
  decoder : SbusDecoder
  sent : List RecoverableResult
  fatal : Option FatalError
deriving DecidableEq

/-- One `process` loop iteration (one byte dequeued), assuming the output
channel accepts every emission.  Mirrors the `match` in
`SbusDecoder::process` and the four state handlers. -/
def stepByteU (d : SbusDecoder) (br : ByteResult) : UStep :=
  match br with
  | .err e => ⟨{ d with state := .Recover }, [.err (.ByteReadError e)], none⟩
  | .ok byte =>
    match d.state with
    | .WaitForHeader =>
      if byte = HEADER_BYTE then
        ⟨{ d with state := .Channel [] }, [], none⟩
      else
        ⟨{ d with state := .Recover }, [.err .MissingHeader], none⟩
    | .Channel previous_bytes =>
      if previous_bytes.length < CHANNEL_BYTE_COUNT then
        if previous_bytes.length = 22 then
          ⟨{ d with state := .Recover }, [], some (.VecFull byte)⟩
        else
          ⟨{ d with state := .Channel (previous_bytes ++ [byte]) }, [], none⟩
      else
        let msg1 := { d.current_message with channels := decode_channels previous_bytes }
        let dd := decode_digital_byte msg1 byte
        ⟨{ d with
            current_message := dd.1,
            failsafe := if dd.2 then true else d.failsafe,
            state := .WaitForFooter }, [], none⟩
    | .WaitForFooter =>
      if byte = FOOTER_BYTE then
        if !d.failsafe then
          ⟨{ d with state := .WaitForHeader }, [.ok d.current_message], none⟩
        else
          ⟨{ d with failsafe := false, state := .WaitForHeader },
            [.err (.Failsafe d.current_message)], none⟩
      else
        ⟨{ d with state := .Recover }, [.err .MissingFooter], none⟩
    | .Recover =>
      if byte = FOOTER_BYTE then
        ⟨{ d with state := .WaitForHeader }, [], none⟩
      else
        ⟨{ d with state := .Recover }, [], none⟩

/-- `SbusDecoder::process` on a byte list, assuming the output channel
accepts every emission. -/
def processU (d : SbusDecoder) : List ByteResult → UStep
  | [] => ⟨d, [], none⟩
  | br :: rest =>
    let s := stepByteU d br
    match s.fatal with
    | some e => ⟨s.decoder, s.sent, some e⟩
    | none =>
      let r := processU s.decoder rest
      ⟨r.decoder, s.sent ++ r.sent, r.fatal⟩

/-- Outcome of one `process` loop iteration against the bounded result
channel: also tracks the remaining free slots. -/
structure BStep where
  decoder : SbusDecoder
  free : Nat
  sent : List RecoverableResult
  fatal : Option FatalError
deriving DecidableEq

/-- `SbusDecoder::try_send_message`: enqueueing fails exactly when the
channel has no free slot, in which case the decoder is parked in `Recover`
and `FatalError::ResultTxFull` carries the unsent message. -/
def try_send_message (d : SbusDecoder) (free : Nat) (m : RecoverableResult) : BStep :=
  if free = 0 then
    ⟨{ d with state := .Recover }, free, [], some (.ResultTxFull m)⟩
  else
    ⟨d, free - 1, [m], none⟩

/-- One `process` loop iteration against the bounded result channel.
Mirrors `SbusDecoder::process`: where a handler calls
`self.try_send_message(..)?`, a `some` fatal outcome is propagated
unchanged (the `self.state = new_state` assignment is skipped), and on
success the handler's returned state is installed. -/
def stepByteB (d : SbusDecoder) (free : Nat) (br : ByteResult) : BStep :=
  match br with
  | .err e =>
    try_send_message { d with state := .Recover } free (.err (.ByteReadError e))
  | .ok byte =>
    match d.state with
    | .WaitForHeader =>
      if byte = HEADER_BYTE then
        ⟨{ d with state := .Channel [] }, free, [], none⟩
      else
        let s := try_send_message d free (.err .MissingHeader)
        match s.fatal with
        | some _ => s
        | none => ⟨{ s.decoder with state := .Recover }, s.free, s.sent, none⟩
    | .Channel previous_bytes =>
      if previous_bytes.length < CHANNEL_BYTE_COUNT then
        if previous_bytes.length = 22 then
          ⟨{ d with state := .Recover }, free, [], some (.VecFull byte)⟩
        else
          ⟨{ d with state := .Channel (previous_bytes ++ [byte]) }, free, [], none⟩
      else
        let msg1 := { d.current_message with channels := decode_channels previous_bytes }
        let dd := decode_digital_byte msg1 byte
        ⟨{ d with
            current_message := dd.1,
            failsafe := if dd.2 then true else d.failsafe,
            state := .WaitForFooter }, free, [], none⟩
    | .WaitForFooter =>
      if byte = FOOTER_BYTE then
        if !d.failsafe then
          let s := try_send_message d free (.ok d.current_message)
          match s.fatal with
          | some _ => s
          | none => ⟨{ s.decoder with state := .WaitForHeader }, s.free, s.sent, none⟩
        else
          let s := try_send_message { d with failsafe := false } free
            (.err (.Failsafe d.current_message))
          match s.fatal with
          | some _ => s
          | none => ⟨{ s.decoder with state := .WaitForHeader }, s.free, s.sent, none⟩
      else
        let s := try_send_message d free (.err .MissingFooter)
        match s.fatal with
        | some _ => s
        | none => ⟨{ s.decoder with state := .Recover }, s.free, s.sent, none⟩
    | .Recover =>
      if byte = FOOTER_BYTE then
        ⟨{ d with state := .WaitForHeader }, free, [], none⟩
      else
        ⟨{ d with state := .Recover }, free, [], none⟩

/-- `SbusDecoder::process` on a byte list, against the bounded result
channel with `free` free slots: drains the list, stopping early with the
fatal error if one occurs. -/
def processB (d : SbusDecoder) (free : Nat) : List ByteResult → BStep
  | [] => ⟨d, free, [], none⟩
  | br :: rest =>
    let s := stepByteB d free br
    match s.fatal with
    | some e => ⟨s.decoder, s.free, s.sent, some e⟩
    | none =>
      let r := processB s.decoder s.free rest
      ⟨r.decoder, r.free, s.sent ++ r.sent, r.fatal⟩

/-! ### Step-level lemmas -/

/-- Under the every-emission-accepted assumption a single step never
fails: the only candidate, `FatalError::VecFull`, sits in a branch that
requires `previous_bytes.len() < 22` and `previous_bytes.len() = 22` at
once. -/
theorem stepByteU_fatal_none (d : SbusDecoder) (br : ByteResult) :
    (stepByteU d br).fatal = none := by
  rcases d with ⟨st, msg, fs⟩
  rcases br with b | e
  · rcases st with _ | buf | _ | _ <;>
      simp only [stepByteU, HEADER_BYTE, FOOTER_BYTE, CHANNEL_BYTE_COUNT] <;> split_ifs <;> simp_all <;> omega
  · rfl

/-- A single step emits at most one message. -/
theorem stepByteU_sent_len (d : SbusDecoder) (br : ByteResult) :
    (stepByteU d br).sent.length ≤ 1 := by
  rcases d with ⟨st, msg, fs⟩
  rcases br with b | e
  · rcases st with _ | buf | _ | _ <;>
      simp only [stepByteU, HEADER_BYTE, FOOTER_BYTE, CHANNEL_BYTE_COUNT] <;> split_ifs <;> simp
  · simp [stepByteU]

/-- A step that emits nothing behaves identically against the bounded
channel, for any number of free slots. -/
theorem stepByteB_of_sent_nil (d : SbusDecoder) (br : ByteResult) (free : Nat)
    (hs : (stepByteU d br).sent = []) :
    stepByteB d free br = ⟨(stepByteU d br).decoder, free, [], none⟩ := by
  rcases d with ⟨st, msg, fs⟩
  rcases br with b | e
  · rcases st with _ | buf | _ | _ <;>
      simp only [stepByteU, stepByteB, try_send_message, HEADER_BYTE, FOOTER_BYTE,
        CHANNEL_BYTE_COUNT] at hs ⊢ <;>
      split_ifs at hs ⊢ <;> simp_all <;> omega
  · simp [stepByteU, stepByteB, try_send_message] at hs

/-- A step that emits a message succeeds with one slot consumed when the
channel has room, and otherwise fails with `ResultTxFull` carrying that
message, the decoder parked in `Recover`. -/
theorem stepByteB_of_sent_one (d : SbusDecoder) (br : ByteResult) (m : RecoverableResult)
    (hs : (stepByteU d br).sent = [m]) :
    (stepByteB d 0 br =
      ⟨{ (stepByteU d br).decoder with state := .Recover }, 0, [], some (.ResultTxFull m)⟩) ∧
    ∀ free, 0 < free →
      stepByteB d free br = ⟨(stepByteU d br).decoder, free - 1, [m], none⟩ := by
  constructor
  · rcases d with ⟨st, msg, fs⟩
    rcases br with b | e
    · rcases st with _ | buf | _ | _ <;>
        simp only [stepByteU, stepByteB, try_send_message, HEADER_BYTE, FOOTER_BYTE,
          CHANNEL_BYTE_COUNT] at hs ⊢ <;>
        split_ifs at hs ⊢ <;> simp_all
    · simp only [stepByteU, stepByteB, try_send_message, HEADER_BYTE, FOOTER_BYTE,
        CHANNEL_BYTE_COUNT] at hs ⊢
      simp_all
  · intro free hf
    rcases d with ⟨st, msg, fs⟩
    rcases br with b | e
    · rcases st with _ | buf | _ | _ <;>
        simp only [stepByteU, stepByteB, try_send_message, HEADER_BYTE, FOOTER_BYTE,
          CHANNEL_BYTE_COUNT] at hs ⊢ <;>
        split_ifs at hs ⊢ <;> simp_all <;> omega
    · simp only [stepByteU, stepByteB, try_send_message, HEADER_BYTE, FOOTER_BYTE,
        CHANNEL_BYTE_COUNT] at hs ⊢
      rw [if_neg (by omega)]
      simp_all

/-- A failing bounded step leaves the decoder in `Recover`. -/
theorem stepByteB_fatal_recover (d : SbusDecoder) (free : Nat) (br : ByteResult)
    (e : FatalError) (h : (stepByteB d free br).fatal = some e) :
    (stepByteB d free br).decoder.state = .Recover := by
  rcases d with ⟨st, msg, fs⟩
  rcases br with b | e'
  · rcases st with _ | buf | _ | _ <;>
      simp only [stepByteB, try_send_message, HEADER_BYTE, FOOTER_BYTE,
        CHANNEL_BYTE_COUNT] at h ⊢ <;>
      split_ifs at h ⊢ <;> simp_all
  · simp only [stepByteB, try_send_message, HEADER_BYTE, FOOTER_BYTE,
      CHANNEL_BYTE_COUNT] at h ⊢
    split_ifs at h ⊢ <;> simp_all

/-- The fatal error of a bounded step is never `VecFull`. -/
theorem stepByteB_fatal_not_vecfull (d : SbusDecoder) (free : Nat) (br : ByteResult)
    (b0 : Nat) : (stepByteB d free br).fatal ≠ some (.VecFull b0) := by
  rcases d with ⟨st, msg, fs⟩
  rcases br with b | e'
  · rcases st with _ | buf | _ | _ <;>
      simp only [stepByteB, try_send_message, HEADER_BYTE, FOOTER_BYTE,
        CHANNEL_BYTE_COUNT] <;>
      split_ifs <;> simp_all <;> omega
  · simp only [stepByteB, try_send_message, HEADER_BYTE, FOOTER_BYTE,
      CHANNEL_BYTE_COUNT]
    split_ifs <;> simp

/-- A step preserves the payload-buffer length invariant. -/
theorem stepByteU_channel_ok (d : SbusDecoder) (br : ByteResult)
    (hd : ∀ buf, d.state = .Channel buf → buf.length ≤ 22) :
    ∀ buf, (stepByteU d br).decoder.state = .Channel buf → buf.length ≤ 22 := by
  rcases d with ⟨st, msg, fs⟩
  rcases br with b | e
  · rcases st with _ | buf' | _ | _ <;>
      simp only [stepByteU, HEADER_BYTE, FOOTER_BYTE, CHANNEL_BYTE_COUNT] <;>
      split_ifs <;> intro buf hb <;> simp_all <;>
      first
        | omega
        | (subst hb; simp; omega)
  · intro buf hb
    simp [stepByteU] at hb

/-! ### Process-level lemmas -/

theorem processU_fatal_none (bytes : List ByteResult) : ∀ d : SbusDecoder,
    (processU d bytes).fatal = none := by
  induction bytes with
  | nil => intro d; rfl
  | cons br rest ih =>
    intro d
    simp only [processU, stepByteU_fatal_none d br]
    exact ih _

theorem processB_fatal_recover (bytes : List ByteResult) : ∀ (d : SbusDecoder) (free : Nat)
    (e : FatalError), (processB d free bytes).fatal = some e →
    (processB d free bytes).decoder.state = .Recover := by
  induction bytes with
  | nil => intro d free e h; simp [processB] at h
  | cons br rest ih =>
    intro d free e h
    simp only [processB] at h ⊢
    cases hf : (stepByteB d free br).fatal with
    | some e' =>
      simp only [hf] at h ⊢
      exact stepByteB_fatal_recover d free br e' hf
    | none =>
      simp only [hf] at h ⊢
      exact ih _ _ _ h

theorem processB_fatal_not_vecfull (bytes : List ByteResult) : ∀ (d : SbusDecoder)
    (free : Nat) (b0 : Nat), (processB d free bytes).fatal ≠ some (.VecFull b0) := by
  induction bytes with
  | nil => intro d free b0 h; simp [processB] at h
  | cons br rest ih =>
    intro d free b0 h
    simp only [processB] at h
    cases hf : (stepByteB d free br).fatal with
    | some e' =>
      simp only [hf] at h
      cases h
      exact stepByteB_fatal_not_vecfull d free br b0 hf
    | none =>
      simp only [hf] at h
      exact ih _ _ _ h

theorem processU_channel_ok (bytes : List ByteResult) : ∀ d : SbusDecoder,
    (∀ buf, d.state = .Channel buf → buf.length ≤ 22) →
    ∀ buf, (processU d bytes).decoder.state = .Channel buf → buf.length ≤ 22 := by
  induction bytes with
  | nil => intro d hd; exact hd
  | cons br rest ih =>
    intro d hd
    simp only [processU, stepByteU_fatal_none d br]
    exact ih _ (stepByteU_channel_ok d br hd)

/-- The bounded run succeeds exactly when the channel has room for every
message the unconstrained run would emit. -/
theorem processB_ok_iff (bytes : List ByteResult) : ∀ (d : SbusDecoder) (free : Nat),
    (processB d free bytes).fatal = none ↔ (processU d bytes).sent.length ≤ free := by
  induction bytes with
  | nil => intro d free; simp [processB, processU]
  | cons br rest ih =>
    intro d free
    have hu := stepByteU_fatal_none d br
    have hl := stepByteU_sent_len d br
    cases hs : (stepByteU d br).sent with
    | nil =>
      have hb := stepByteB_of_sent_nil d br free hs
      simp only [processB, processU, hb, hu, hs, List.nil_append, List.length_nil]
      exact ih _ free
    | cons m tail =>
      have htail : tail = [] := by
        rw [hs] at hl
        simpa using hl
      subst htail
      have hone := stepByteB_of_sent_one d br m hs
      rcases Nat.eq_zero_or_pos free with hf | hf
      · subst hf
        simp [processB, processU, hone.1, hu, hs]
      · have hb := hone.2 free hf
        simp only [processB, processU, hb, hu, hs, List.cons_append, List.nil_append,
          List.length_cons]
        rw [ih _ (free - 1)]
        omega

/-- When the bounded run fails with `ResultTxFull m`, the unsent message
`m` is the `(free+1)`-st message of the unconstrained run. -/
theorem processB_full_msg (bytes : List ByteResult) : ∀ (d : SbusDecoder) (free : Nat)
    (m : RecoverableResult), (processB d free bytes).fatal = some (.ResultTxFull m) →
    (processU d bytes).sent[free]? = some m := by
  induction bytes with
  | nil => intro d free m h; simp [processB] at h
  | cons br rest ih =>
    intro d free m h
    have hu := stepByteU_fatal_none d br
    have hl := stepByteU_sent_len d br
    cases hs : (stepByteU d br).sent with
    | nil =>
      have hb := stepByteB_of_sent_nil d br free hs
      simp only [processB, hb] at h
      simp only [processU, hu, hs, List.nil_append]
      exact ih _ _ _ h
    | cons m' tail =>
      have htail : tail = [] := by
        rw [hs] at hl
        simpa using hl
      subst htail
      have hone := stepByteB_of_sent_one d br m' hs
      rcases Nat.eq_zero_or_pos free with hf | hf
      · subst hf
        simp only [processB, hone.1] at h
        simp only [Option.some.injEq, FatalError.ResultTxFull.injEq] at h
        subst h
        simp [processU, hu, hs]
      · have hb := hone.2 free hf
        simp only [processB, hb] at h
        simp only [processU, hu, hs, List.cons_append, List.nil_append]
        have := ih _ _ _ h
        rw [List.getElem?_cons]
        rw [if_neg (by omega)]
        exact this

/-- Feeding payload bytes while fewer than 22 are buffered just extends
the buffer, emitting nothing. -/
theorem processU_channel_fill (ys : List Nat) : ∀ (msg : SbusFrame) (fs : Bool)
    (buf : List Nat) (rest : List ByteResult), buf.length + ys.length ≤ 22 →
    processU ⟨.Channel buf, msg, fs⟩ (ys.map .ok ++ rest) =
      processU ⟨.Channel (buf ++ ys), msg, fs⟩ rest := by
  induction ys with
  | nil => intro msg fs buf rest _; simp
  | cons y ys ih =>
    intro msg fs buf rest h
    simp only [List.map_cons, List.cons_append, processU]
    have hstep : stepByteU ⟨.Channel buf, msg, fs⟩ (.ok y) =
        ⟨⟨.Channel (buf ++ [y]), msg, fs⟩, [], none⟩ := by
      simp only [stepByteU, CHANNEL_BYTE_COUNT, List.length_cons]
      rw [if_pos (by simp at h; omega), if_neg (by simp at h; omega)]
    rw [hstep]
    simp only [List.nil_append, List.append_eq]
    rw [ih msg fs (buf ++ [y]) rest (by simp at h ⊢; omega)]
    simp [List.append_assoc]

/-- **C4** `process()` returns `Ok(())` iff it drains the byte channel
without any output-channel enqueue failing (equivalently: the channel has
room for every message the drain would emit); otherwise it returns a
`FatalError`, the decoder's state is `Recover` at the moment of return, and
a `ResultTxFull` carries exactly the first message the channel could not
accept. -/
theorem process_fatal_behavior (bytes : List ByteResult) (d : SbusDecoder) (free : Nat) :
    ((processB d free bytes).fatal = none ↔ (processU d bytes).sent.length ≤ free) ∧
    (∀ e, (processB d free bytes).fatal = some e →
      (processB d free bytes).decoder.state = .Recover) ∧
    (∀ m, (processB d free bytes).fatal = some (.ResultTxFull m) →
      (processU d bytes).sent[free]? = some m) :=
  ⟨processB_ok_iff bytes d free,
   fun e => processB_fatal_recover bytes d free e,
   fun m => processB_full_msg bytes d free m⟩

/-- Witness for `process_fatal_behavior`: a full channel (no free slot) and
a single junk byte, whose `MissingHeader` emission cannot be enqueued. -/
theorem process_fatal_behavior_witness :
    (processB SbusDecoder.new 0 [.ok 1]).decoder.state = .Recover ∧
    (processU SbusDecoder.new [.ok 1]).sent[0]? = some (.err .MissingHeader) :=
  ⟨(process_fatal_behavior [.ok 1] SbusDecoder.new 0).2.1
      (.ResultTxFull (.err .MissingHeader)) (by decide),
   (process_fatal_behavior [.ok 1] SbusDecoder.new 0).2.2
      (.err .MissingHeader) (by decide)⟩

/-- **C9** Starting from the initial decoder, every reachable `Channel`
buffer holds at most 22 bytes (the state after any byte sequence — in
particular after any prefix of a longer input — satisfies this), and
`process` never fails with `FatalError::VecFull`: the push is guarded by
`len < 22` while `heapless` push only fails at `len = 22`. -/
theorem channel_buffer_invariant (bytes : List ByteResult) (free : Nat) :
    (∀ buf, (processU SbusDecoder.new bytes).decoder.state = .Channel buf →
      buf.length ≤ 22) ∧
    ∀ b, (processB SbusDecoder.new free bytes).fatal ≠ some (.VecFull b) :=
  ⟨processU_channel_ok bytes SbusDecoder.new (fun _ h => nomatch h),
   fun b => processB_fatal_not_vecfull bytes SbusDecoder.new free b⟩

/-- Witness for `channel_buffer_invariant`: a header byte and one payload
byte leave the decoder in `Channel [7]`. -/
theorem channel_buffer_invariant_witness :
    [(7 : Nat)].length ≤ 22 ∧
    (processB SbusDecoder.new 1 [.ok 0x0f, .ok 7]).fatal ≠ some (.VecFull 3) :=
  ⟨(channel_buffer_invariant [.ok 0x0f, .ok 7] 1).1 [7] (by decide),
   (channel_buffer_invariant [.ok 0x0f, .ok 7] 1).2 3⟩

/-- **C1** (evaluation at the failing input) The decoder's `failsafe` flag
is only cleared when a failsafe frame is actually delivered; a frame whose
flags byte has bit 2 set but whose footer is corrupted leaves the flag set.
The next well-formed frame — here with flags byte `0x00`, bit 2 clear — is
then emitted as `Err(Failsafe(frame))` instead of `Ok(frame)`, so the
emitted message is not independent of earlier frames. -/
theorem sticky_failsafe_eval :
    (processU SbusDecoder.new
      (([0x0f] ++ List.replicate 22 0 ++ [0x04, 0x01, 0x00, 0x0f] ++
        List.replicate 22 0 ++ [0x00, 0x00]).map ByteResult.ok)).sent =
      [.err .MissingFooter,
       .err (.Failsafe ⟨List.replicate 16 0, [false, false]⟩)] := by
  decide

/-- **C3** (counterexample) From the initial `WaitForHeader` state — the
empty "arbitrary byte sequence" — the bytes `0x00, 0x0F` followed by a
valid 24-byte frame remainder do not deliver the frame: the `0x00` is
consumed as a failed header (emitting `MissingHeader`) and the `0x0F` is
then swallowed by `Recover`. -/
theorem resync_header_counterexample :
    (processU SbusDecoder.new
      ((ByteResult.ok 0x00) :: (ByteResult.ok 0x0f) ::
        (List.replicate 22 (ByteResult.ok 1) ++ [.ok 1, .ok 0x00]))).sent =
      [.err .MissingHeader] := by
  decide

/-- **C3** (amended) From any decoder state whose state is `Recover` —
which is where any protocol violation leaves the decoder — the bytes
`0x00, 0x0F`, 22 payload bytes, a flags byte and the `0x00` footer deliver
exactly one message carrying the decoded frame: `Ok(frame)` when neither
the flags byte's bit 2 nor a still-pending failsafe flag is set, and
`Err(Failsafe(frame))` otherwise. -/
theorem resync_from_recover (d : SbusDecoder) (hd : d.state = .Recover)
    (payload : List Nat) (hlen : payload.length = 22) (flags : Nat) :
    (processU d
      (.ok 0x00 :: .ok 0x0f :: (payload.map .ok ++ [.ok flags, .ok 0x00]))).sent =
      [if ((flags &&& 4 != 0) || d.failsafe) then
        .err (.Failsafe ⟨decode_channels payload, [flags &&& 1 != 0, flags &&& 2 != 0]⟩)
       else
        .ok ⟨decode_channels payload, [flags &&& 1 != 0, flags &&& 2 != 0]⟩] := by
  rcases d with ⟨st, msg, fs⟩
  simp only at hd
  subst hd
  have h1 : stepByteU ⟨.Recover, msg, fs⟩ (.ok 0x00) =
      ⟨⟨.WaitForHeader, msg, fs⟩, [], none⟩ := by
    simp [stepByteU, FOOTER_BYTE]
  have h2 : stepByteU ⟨.WaitForHeader, msg, fs⟩ (.ok 0x0f) =
      ⟨⟨.Channel [], msg, fs⟩, [], none⟩ := by
    simp [stepByteU, HEADER_BYTE]
  simp only [processU, h1, h2, List.nil_append]
  rw [show (payload.map ByteResult.ok ++ [.ok flags, .ok 0x00] : List ByteResult) =
    (payload.map ByteResult.ok ++ [.ok flags, .ok 0x00]) from rfl]
  rw [processU_channel_fill payload msg fs [] [.ok flags, .ok 0x00] (by simp [hlen])]
  have h3 : stepByteU ⟨.Channel ([] ++ payload), msg, fs⟩ (.ok flags) =
      ⟨⟨.WaitForFooter,
        ⟨decode_channels payload, [flags &&& 1 != 0, flags &&& 2 != 0]⟩,
        if (flags &&& 4 != 0 : Bool) then true else fs⟩, [], none⟩ := by
    simp only [stepByteU, CHANNEL_BYTE_COUNT, List.nil_append]
    rw [if_neg (by omega)]
    simp [decode_digital_byte]
  simp only [List.nil_append] at h3
  simp only [processU, h3, List.nil_append]
  cases hfs : (flags &&& 4 != 0 : Bool) <;> cases fs <;>
    simp [stepByteU, processU, FOOTER_BYTE, hfs]

/-- Witness for `resync_from_recover`: all-zero payload and flags from a
decoder parked in `Recover` with no pending failsafe. -/
theorem resync_from_recover_witness :
    (processU ⟨.Recover, SbusFrame.default, false⟩
      (.ok 0x00 :: .ok 0x0f :: ((List.replicate 22 0).map .ok ++ [.ok 0, .ok 0x00]))).sent =
      [if (((0 : Nat) &&& 4 != 0) || false) then
        .err (.Failsafe ⟨decode_channels (List.replicate 22 0),
          [(0 : Nat) &&& 1 != 0, (0 : Nat) &&& 2 != 0]⟩)
       else
        .ok ⟨decode_channels (List.replicate 22 0),
          [(0 : Nat) &&& 1 != 0, (0 : Nat) &&& 2 != 0]⟩] :=
  resync_from_recover ⟨.Recover, SbusFrame.default, false⟩ rfl
    (List.replicate 22 0) rfl 0

end Sbus

/-!
### The CPPM frame builder and writer, from `src/cppm.rs`

The builder's `f32` arithmetic is modelled by exact rational arithmetic.
On every input appearing in the claims below (0, 1/4, 1/2, 3/4, 1, 1/1024),
both the input and the product `(MAX_TIME - MIN_TIME) as f32 * channel` are
exactly representable as `f32` (the products are the small integers 0, 255,
510, 765, 1020 and the dyadic 1020/1024 with its 10-bit mantissa), so the
rational model agrees bit-for-bit with the Rust code there.  The cast
`as u32` truncates toward zero and clamps negatives to 0, which on ℚ is
`Int.toNat ∘ Int.floor` (they agree on all of ℚ, not only on the
nonnegative values arising here).
-/

namespace Cppm

def FRAME_TIME : Nat := 22000
def MIN_TIME : Nat := 690
def MAX_TIME : Nat := 1710
def SEPARATION : Nat := 300
def CHANNEL_COUNT : Nat := 8

/-- Rust `x as u32` on a real (here: rational) value: truncate toward zero,
clamping negatives to 0. -/
def float_to_u32 (q : ℚ) : Nat := (⌊q⌋).toNat

/-- The per-channel duration computed inside `PpmFrame::from_channels`:
`MIN_TIME + ((MAX_TIME - MIN_TIME) as f32 * channel) as u32`. -/
def channel_time (c : ℚ) : Nat :=
  MIN_TIME + float_to_u32 (((MAX_TIME - MIN_TIME : Nat) : ℚ) * c)

/-- The `total_time` accumulator of `from_channels`:
`total_time += SEPARATION + time` over the 8 channels, starting from 0. -/
def total_time (channels : List ℚ) : Nat :=
  channels.foldl (fun acc c => acc + (SEPARATION + channel_time c)) 0

/-- `PpmFrame` from `cppm.rs`: the `[TIME; 8]` array of channel timings is
a list, plus the frame padding. -/
structure PpmFrame (TIME : Type) where
  signal_timings : List TIME
  frame_padding : TIME
deriving DecidableEq

/-- `PpmFrame::from_channels`.  The loop writes `us_to_time(time)` at each
index and accumulates `total_time`; the dummy initialisation of
`signal_timings` is fully overwritten.  `FRAME_TIME - total_time` is the
`u32` subtraction (truncated `Nat` subtraction; theorem
`from_channels_frame_time` shows it never underflows for channels in
`[0, 1]`). -/
def PpmFrame.from_channels {TIME : Type} (channels : List ℚ)
    (us_to_time : Nat → TIME) : PpmFrame TIME :=
  { signal_timings := channels.map fun c => us_to_time (channel_time c),
    frame_padding := us_to_time (FRAME_TIME - total_time channels) }

/-- `CppmWriter` from `cppm.rs` (the GPIO pin level is tracked by
`is_low`; construction drives the pin high, matching `is_low = false`). -/
structure CppmWriter (TIME : Type) where
  index : Nat
  is_low : Bool
  current_frame : PpmFrame TIME
  time_300us : TIME
deriving DecidableEq

/-- What one `on_timer` call does to the outside world: the pin level it
sets and the duration it loads into the count-down timer. -/
inductive CppmEvent (TIME : Type) where
  | separator (t : TIME)
  | channel_pulse (i : Nat) (t : TIME)
  | frame_padding_pulse (t : TIME)
deriving DecidableEq

/-- `CppmWriter::new`: pin driven high, `index = 0`, `is_low = false`,
initial frame supplied by the caller. -/
def CppmWriter.new {TIME : Type} (initial_frame : PpmFrame TIME)
    (time_300us : TIME) : CppmWriter TIME :=
  ⟨0, false, initial_frame, time_300us⟩

/-- `CppmWriter::on_timer`.  The Rust `signal_timings[index]` array access
is `getD index default` (the runs below never reach the default). -/
def CppmWriter.on_timer {TIME : Type} [Inhabited TIME] (w : CppmWriter TIME)
    (next_frame : PpmFrame TIME) : CppmWriter TIME × CppmEvent TIME :=
  if w.is_low then
    if w.index = CHANNEL_COUNT then
      ({ w with current_frame := next_frame, index := 0, is_low := false },
        .frame_padding_pulse w.current_frame.frame_padding)
    else
      ({ w with index := w.index + 1, is_low := false },
        .channel_pulse w.index (w.current_frame.signal_timings.getD w.index default))
  else
    ({ w with is_low := true }, .separator w.time_300us)

/-- `n` consecutive `on_timer` invocations (the timer handler reads the
same `next_frame` each expiry), collecting the events in order. -/
def CppmWriter.run {TIME : Type} [Inhabited TIME] (w : CppmWriter TIME)
    (next_frame : PpmFrame TIME) : Nat → CppmWriter TIME × List (CppmEvent TIME)
  | 0 => (w, [])
  | n + 1 =>
    match w.on_timer next_frame with
    | (w', e) =>
      match w'.run next_frame n with
      | (w'', es) => (w'', e :: es)

/-! ### Arithmetic helpers -/

theorem channel_time_eval (c : ℚ) (n : Nat) (h : (1020 : ℚ) * c = (n : ℚ)) :
    channel_time c = 690 + n := by
  have e : ((MAX_TIME - MIN_TIME : Nat) : ℚ) = 1020 := by norm_num [MAX_TIME, MIN_TIME]
  have hf : ⌊((MAX_TIME - MIN_TIME : Nat) : ℚ) * c⌋ = (n : Int) := by
    rw [e, h]
    exact Int.floor_natCast n
  simp only [channel_time, float_to_u32, hf, Int.toNat_natCast]
  norm_num [MIN_TIME]

theorem channel_time_le (c : ℚ) (h1 : c ≤ 1) : channel_time c ≤ MAX_TIME := by
  have e : ((MAX_TIME - MIN_TIME : Nat) : ℚ) = 1020 := by norm_num [MAX_TIME, MIN_TIME]
  have hq : ((MAX_TIME - MIN_TIME : Nat) : ℚ) * c ≤ 1020 := by
    rw [e]
    nlinarith
  have hf : ⌊((MAX_TIME - MIN_TIME : Nat) : ℚ) * c⌋ ≤ 1020 := by
    calc ⌊((MAX_TIME - MIN_TIME : Nat) : ℚ) * c⌋ ≤ ⌊(1020 : ℚ)⌋ := Int.floor_le_floor hq
    _ = 1020 := by norm_num
  have hn : float_to_u32 (((MAX_TIME - MIN_TIME : Nat) : ℚ) * c) ≤ 1020 :=
    Int.toNat_le.mpr (by exact_mod_cast hf)
  calc channel_time c
      = MIN_TIME + float_to_u32 (((MAX_TIME - MIN_TIME : Nat) : ℚ) * c) := rfl
    _ ≤ MIN_TIME + 1020 := by omega
    _ = MAX_TIME := by norm_num [MIN_TIME, MAX_TIME]

theorem foldl_add_eq_sum (f : ℚ → Nat) (l : List ℚ) : ∀ a : Nat,
    l.foldl (fun acc c => acc + f c) a = a + (l.map f).sum := by
  induction l with
  | nil => intro a; simp
  | cons c t ih =>
    intro a
    simp only [List.foldl_cons, List.map_cons, List.sum_cons, ih]
    omega

theorem total_time_eq_sum (channels : List ℚ) :
    total_time channels = (channels.map fun c => SEPARATION + channel_time c).sum := by
  simpa using foldl_add_eq_sum (fun c => SEPARATION + channel_time c) channels 0

/-- **C5** For every channel vector in `[0,1]^8` and the identity
microsecond conversion, the frame built by `from_channels` satisfies
`Σ (SEP_US + d_k) + frame_padding = 22 000 µs`, and the `u32` subtraction
`FRAME_TIME - total_time` never underflows (`total_time ≤ FRAME_TIME`). -/
theorem from_channels_frame_time (channels : List ℚ) (hlen : channels.length = 8)
    (hc : ∀ c ∈ channels, 0 ≤ c ∧ c ≤ 1) :
    total_time channels ≤ FRAME_TIME ∧
    (channels.map fun c => SEPARATION + channel_time c).sum +
      (PpmFrame.from_channels channels id).frame_padding = FRAME_TIME := by
  have hsum : total_time channels =
      (channels.map fun c => SEPARATION + channel_time c).sum :=
    total_time_eq_sum channels
  have hbound : (channels.map fun c => SEPARATION + channel_time c).sum ≤
      8 * (SEPARATION + MAX_TIME) := by
    have hle := List.sum_le_card_nsmul
      (channels.map fun c => SEPARATION + channel_time c) (SEPARATION + MAX_TIME) ?_
    · simpa [hlen, smul_eq_mul] using hle
    · intro x hx
      simp only [List.mem_map] at hx
      obtain ⟨c, hcmem, rfl⟩ := hx
      have := channel_time_le c (hc c hcmem).2
      omega
  have htot : total_time channels ≤ FRAME_TIME := by
    rw [hsum]
    calc (channels.map fun c => SEPARATION + channel_time c).sum
        ≤ 8 * (SEPARATION + MAX_TIME) := hbound
      _ ≤ FRAME_TIME := by norm_num [SEPARATION, MAX_TIME, FRAME_TIME]
  refine ⟨htot, ?_⟩
  simp only [PpmFrame.from_channels, id]
  rw [← hsum]
  omega

/-- Witness for `from_channels_frame_time` at eight mid-stick channels. -/
theorem from_channels_frame_time_witness :
    total_time (List.replicate 8 (1 / 2 : ℚ)) ≤ FRAME_TIME :=
  (from_channels_frame_time (List.replicate 8 (1 / 2)) rfl
    (fun c hcmem => by rw [List.eq_of_mem_replicate hcmem]; norm_num)).1

/-- **C6** (counterexample) The claim says the fractional product is
rounded to nearest: the duration for `c = 1/1024` would then be
`690 + round(1020/1024) = 691`.  The code casts with `as u32`, which
truncates, and computes 690.  (Both `1/1024` and the product `1020/1024`
are exactly representable in `f32`, so the rational model is exact here.) -/
theorem channel_time_not_rounded :
    channel_time (1 / 1024) = 690 ∧
    MIN_TIME + (round (((MAX_TIME - MIN_TIME : Nat) : ℚ) * (1 / 1024))).toNat = 691 := by
  have e : ((MAX_TIME - MIN_TIME : Nat) : ℚ) = 1020 := by norm_num [MAX_TIME, MIN_TIME]
  constructor
  · have hf : ⌊(1020 : ℚ) * (1 / 1024)⌋ = 0 := by
      rw [Int.floor_eq_iff] <;> norm_num
    simp only [channel_time, float_to_u32, e, hf, Int.toNat_zero]
    norm_num [MIN_TIME]
  · have hr : round ((1020 : ℚ) * (1 / 1024)) = 1 := by
      rw [round_eq, Int.floor_eq_iff] <;> norm_num
    rw [e, hr]
    norm_num [MIN_TIME]

/-- **C6** (amended) The per-channel duration truncates the fractional
product instead of rounding it: `channel_time c` is the unique integer `d`
with `d ≤ MIN_US + (MAX_US − MIN_US)·c < d + 1`. -/
theorem channel_time_floor_bounds (c : ℚ) (h0 : 0 ≤ c) (h1 : c ≤ 1) :
    (channel_time c : ℚ) ≤ (MIN_TIME : ℚ) + ((MAX_TIME - MIN_TIME : Nat) : ℚ) * c ∧
    (MIN_TIME : ℚ) + ((MAX_TIME - MIN_TIME : Nat) : ℚ) * c < (channel_time c : ℚ) + 1 := by
  have hq : (0 : ℚ) ≤ ((MAX_TIME - MIN_TIME : Nat) : ℚ) * c := by positivity
  have hfl : (0 : ℤ) ≤ ⌊((MAX_TIME - MIN_TIME : Nat) : ℚ) * c⌋ := Int.floor_nonneg.mpr hq
  have hc1 : (channel_time c : ℚ) =
      (MIN_TIME : ℚ) + ((⌊((MAX_TIME - MIN_TIME : Nat) : ℚ) * c⌋ : ℤ) : ℚ) := by
    simp only [channel_time, float_to_u32]
    push_cast
    congr 1
    exact_mod_cast Int.toNat_of_nonneg hfl
  constructor
  · rw [hc1]
    have := Int.floor_le (((MAX_TIME - MIN_TIME : Nat) : ℚ) * c)
    linarith
  · rw [hc1]
    have := Int.lt_floor_add_one (((MAX_TIME - MIN_TIME : Nat) : ℚ) * c)
    linarith

/-- Witness for `channel_time_floor_bounds` at `c = 1/2`. -/
theorem channel_time_floor_bounds_witness :
    (channel_time (1 / 2) : ℚ) ≤
      (MIN_TIME : ℚ) + ((MAX_TIME - MIN_TIME : Nat) : ℚ) * (1 / 2) ∧
    (MIN_TIME : ℚ) + ((MAX_TIME - MIN_TIME : Nat) : ℚ) * (1 / 2) <
      (channel_time (1 / 2) : ℚ) + 1 :=
  channel_time_floor_bounds (1 / 2) (by norm_num) (by norm_num)

/-- **C7** (counterexample) On the spec's test vector the claim expects
`pulses[4] = 1457` (for `c = 0.75`) and padding 9998; the code computes
`690 + trunc(1020·0.75) = 690 + 765 = 1455` and padding 10000.  (1457 is
not even the rounded value — `1020·0.75 = 765` exactly.) -/
theorem from_channels_test_vector_counterexample :
    (PpmFrame.from_channels [0, 1/2, 1, 1/4, 3/4, 0, 1, 1/2] id).signal_timings.getD 4 0 =
      1455 ∧
    (1455 : Nat) ≠ 1457 ∧
    (PpmFrame.from_channels [0, 1/2, 1, 1/4, 3/4, 0, 1, 1/2] id).frame_padding = 10000 ∧
    (10000 : Nat) ≠ 9998 := by
  have eq34 : channel_time (3 / 4) = 1455 := by
    rw [channel_time_eval (3 / 4) 765 (by norm_num)]
  have e0 : channel_time 0 = 690 := by
    rw [channel_time_eval 0 0 (by norm_num)]
  have eh : channel_time (1 / 2) = 1200 := by
    rw [channel_time_eval (1 / 2) 510 (by norm_num)]
  have e1 : channel_time 1 = 1710 := by
    rw [channel_time_eval 1 1020 (by norm_num)]
  have eq4 : channel_time (1 / 4) = 945 := by
    rw [channel_time_eval (1 / 4) 255 (by norm_num)]
  refine ⟨?_, by norm_num, ?_, by norm_num⟩
  · simp only [PpmFrame.from_channels, List.map_cons, List.map_nil, id]
    simp only [e0, eh, e1, eq4, eq34]
    rfl
  · simp only [PpmFrame.from_channels, total_time, List.foldl_cons, List.foldl_nil, id,
      SEPARATION]
    simp only [e0, eh, e1, eq4, eq34]
    norm_num [FRAME_TIME]

/-- **C7** (amended) With channels `[0, 0.5, 1, 0.25, 0.75, 0, 1, 0.5]`
and the identity conversion, `from_channels` yields pulse durations
`[690, 1200, 1710, 945, 1455, 690, 1710, 1200]` and frame padding
`22000 − 2400 − 9600 = 10000 µs`. -/
theorem from_channels_test_vector :
    (PpmFrame.from_channels [0, 1/2, 1, 1/4, 3/4, 0, 1, 1/2] id).signal_timings =
      [690, 1200, 1710, 945, 1455, 690, 1710, 1200] ∧
    (PpmFrame.from_channels [0, 1/2, 1, 1/4, 3/4, 0, 1, 1/2] id).frame_padding = 10000 := by
  have e0 : channel_time 0 = 690 := by
    rw [channel_time_eval 0 0 (by norm_num)]
  have eh : channel_time (1 / 2) = 1200 := by
    rw [channel_time_eval (1 / 2) 510 (by norm_num)]
  have e1 : channel_time 1 = 1710 := by
    rw [channel_time_eval 1 1020 (by norm_num)]
  have eq4 : channel_time (1 / 4) = 945 := by
    rw [channel_time_eval (1 / 4) 255 (by norm_num)]
  have eq34 : channel_time (3 / 4) = 1455 := by
    rw [channel_time_eval (3 / 4) 765 (by norm_num)]
  constructor
  · simp only [PpmFrame.from_channels, List.map_cons, List.map_nil, id]
    simp only [e0, eh, e1, eq4, eq34]
  · simp only [PpmFrame.from_channels, total_time, List.foldl_cons, List.foldl_nil, id,
      SEPARATION]
    simp only [e0, eh, e1, eq4, eq34]
    norm_num [FRAME_TIME]

/-- **C8** (counterexample) 17 consecutive `on_timer` invocations from the
initial state do not contain a frame-padding emission: they produce 9
low-separator and 8 high channel-pulse emissions; the frame-padding pulse
fires on the 18th invocation. -/
theorem on_timer_17_calls_counterexample :
    ((((CppmWriter.new (⟨[10, 11, 12, 13, 14, 15, 16, 17], 99⟩ : PpmFrame Nat) 300).run
        ⟨[10, 11, 12, 13, 14, 15, 16, 17], 99⟩ 17).2.countP
      fun e => match e with | .frame_padding_pulse _ => true | _ => false) = 0) ∧
    ((((CppmWriter.new (⟨[10, 11, 12, 13, 14, 15, 16, 17], 99⟩ : PpmFrame Nat) 300).run
        ⟨[10, 11, 12, 13, 14, 15, 16, 17], 99⟩ 17).2.countP
      fun e => match e with | .separator _ => true | _ => false) = 9) := by
  decide

/-- **C8** (amended) 18 consecutive `on_timer` invocations starting from a
freshly constructed writer emit exactly one full frame: 9 low separators
(timer loaded with the 300 µs value), the 8 high channel pulses in order
(timer loaded with the current frame's durations), and 1 frame-padding
emission, after which the writer has swapped in the next frame and is back
in its initial configuration. -/
theorem on_timer_18_calls (f next : PpmFrame Nat) (t300 : Nat) :
    (CppmWriter.new f t300).run next 18 =
      (CppmWriter.new next t300,
       [.separator t300, .channel_pulse 0 (f.signal_timings.getD 0 default),
        .separator t300, .channel_pulse 1 (f.signal_timings.getD 1 default),
        .separator t300, .channel_pulse 2 (f.signal_timings.getD 2 default),
        .separator t300, .channel_pulse 3 (f.signal_timings.getD 3 default),
        .separator t300, .channel_pulse 4 (f.signal_timings.getD 4 default),
        .separator t300, .channel_pulse 5 (f.signal_timings.getD 5 default),
        .separator t300, .channel_pulse 6 (f.signal_timings.getD 6 default),
        .separator t300, .channel_pulse 7 (f.signal_timings.getD 7 default),
        .separator t300, .frame_padding_pulse f.frame_padding]) := by
  rfl

end Cppm
